import Mathlib

/-!
go-awssh: inventory cache, join and candidate codec

A shallow embedding of `main.go` of `kenju/go-awssh`, and the properties of its
core: `Merge`, `BuildCandidates`, `buildFqdns`, `IsCacheEntry`, `IsExpired`,
`readFromCache`, `readInstances` and `Instance.Fqdn`.

Modelling conventions:

* A Go `string` is a Lean `String`, read as its sequence of Unicode code points.
  Go compares strings byte by byte; for valid UTF-8 this is the lexicographic
  comparison of the code points, which is what `stringLess` computes. The
  precision of a `%.30s` verb counts code points, as `truncateRunes` does.
* A Go `map[string]*T` is a list of (key, value) pairs. The order of the list is
  the order in which `range` happens to enumerate the map, so a statement about
  "whatever iteration order" quantifies over the permutations of the list. Map
  values are non-nil records; the one pointer the program tests or dereferences
  separately, `Instance.Vpc`, is an `Option` (`none` is `nil`).
* `log.Fatal`/`log.Fatalf` end the process: they are the result `Result.fatal`
  carrying the message. A Go run-time panic (nil dereference, index out of
  range) is `Result.panic`.
* The operating system, the clock, the JSON codec and the EC2 API are the fields
  of `Env`; what the program writes to the outside world is a list of `Effect`s.
-/

namespace Awssh

/-! ## Results -/

/-- How a Go function call ends: it returns a value, the process is ended by
`log.Fatal`, the run time panics, or the call leaves the modelled fragment of a
library. -/
inductive Result (α : Type) where
  | ok (v : α)
  | fatal (msg : String)
  | panic (msg : String)
  | unmodelled (what : String)
deriving DecidableEq

/-- Sequencing: what follows a call runs only when the call returns. -/
def Result.bind {α β : Type} : Result α → (α → Result β) → Result β
  | .ok v, f => f v
  | .fatal m, _ => .fatal m
  | .panic m, _ => .panic m
  | .unmodelled m, _ => .unmodelled m

/-! ## Library models: `strings`, `sort`, `fmt`, `path` -/

/-- Byte-wise `a < b` on code point sequences. -/
def runesLess : List Char → List Char → Bool
  | _, [] => false
  | [], _ :: _ => true
  | a :: as, b :: bs =>
    decide (a.toNat < b.toNat) || (decide (a.toNat = b.toNat) && runesLess as bs)

/-- Go's `a < b` on strings. -/
def stringLess (a b : String) : Bool := runesLess a.data b.data

/-- Model of `sort.Strings`: sorts into increasing order with `less(i, j) = x[i] < x[j]`. -/
def sortStrings (l : List String) : List String :=
  l.insertionSort (fun a b => stringLess b a = false)

/-- Model of `strings.Join`. -/
def stringsJoin : List String → String → String
  | [], _ => ""
  | [a], _ => a
  | a :: b :: rest, sep => a ++ sep ++ stringsJoin (b :: rest) sep

/-- Splitting a code point sequence at every occurrence of `sep`. -/
def splitRunes (sep : Char) : List Char → List (List Char)
  | [] => [[]]
  | c :: cs =>
    if c = sep then [] :: splitRunes sep cs
    else
      match splitRunes sep cs with
      | [] => [[c]]
      | f :: fs => (c :: f) :: fs

/-- Model of `strings.Split(s, sep)` for a separator of one character. -/
def stringsSplit (s : String) (sep : Char) : List String :=
  (splitRunes sep s.data).map String.mk

/-- Model of `strings.HasPrefix`. -/
def stringsHasPrefix (s pfx : String) : Bool := pfx.data.isPrefixOf s.data

/-- The `%.Ns` verb of `fmt.Sprintf`: the first at most `n` code points of `s`. -/
def truncateRunes (n : Nat) (s : String) : String := ⟨s.data.take n⟩

/-- Model of `path.Join`/`filepath.Join` on three clean elements. -/
def pathJoin3 (a b c : String) : String := a ++ "/" ++ b ++ "/" ++ c

/-- Model of `filepath.Join` on two clean elements. -/
def pathJoin2 (a b : String) : String := a ++ "/" ++ b

/-- Lookup in a Go map. -/
def mapGet {β : Type} : List (String × β) → String → Option β
  | [], _ => none
  | (k, v) :: rest, key => if k = key then some v else mapGet rest key

/-- Assignment `m[key] = v` in a Go map. -/
def mapSet {β : Type} : List (String × β) → String → β → List (String × β)
  | [], key, v => [(key, v)]
  | (k, w) :: rest, key, v =>
    if k = key then (key, v) :: rest else (k, w) :: mapSet rest key v

/-! ## Constants -/

def version : String := "v0.1.0"
def cacheDirRoot : String := "/tmp"
def cacheFileInstances : String := "instances.json"

/-! ## Data model -/

structure Vpc where
  VpcId : String
  Tags : List (String × String)
  Name : String
  ShortName : String
deriving DecidableEq

structure Instance where
  InstanceId : String
  Tags : List (String × String)
  Name : String
  Roles : List String
  VpcId : String
  Vpc : Option Vpc
deriving DecidableEq

structure ReadOutput where
  IsCached : Bool
  Instances : List (String × Instance)
deriving DecidableEq

structure Config where
  PurgeCache : Bool
  Region : String
  SshBin : String
  TemplateFqdn : String
deriving DecidableEq

/-- The part of `fs.FileInfo` the program reads; `ModTime` in nanoseconds. -/
structure FileInfo where
  Name : String
  IsDir : Bool
  ModTime : Int
deriving DecidableEq

/-! ## Candidate codec: `ReadOutput.BuildCandidates` -/

/-- The body of the loop of `BuildCandidates`:
`fmt.Sprintf("%.30s %.10s %s", instance.Name, instance.Vpc.Name, instanceId)`. -/
def candidateLine (instanceId : String) (inst : Instance) : Result String :=
  match inst.Vpc with
  | none => .panic "invalid memory address or nil pointer dereference"
  | some vpc =>
    .ok (truncateRunes 30 inst.Name ++ " " ++ truncateRunes 10 vpc.Name ++ " " ++ instanceId)

/-- The loop of `BuildCandidates`: one line appended per map entry, in iteration order. -/
def collectCandidates : List (String × Instance) → Result (List String)
  | [] => .ok []
  | (instanceId, inst) :: rest =>
    (candidateLine instanceId inst).bind fun line =>
    (collectCandidates rest).bind fun candidates =>
    .ok (line :: candidates)

def BuildCandidates (ro : ReadOutput) : Result String :=
  (collectCandidates ro.Instances).bind fun candidates =>
  .ok (stringsJoin (sortStrings candidates) "\n")

/-! ## Join: `Merge` -/

/-- The message of the `log.Fatalf` of `Merge`. -/
def vpcNotFound (inst : Instance) : String :=
  "Vpc not found for instance_id=" ++ inst.InstanceId ++ ", vpc_id=" ++ inst.VpcId ++ "\n"

def Merge : List (String × Instance) → List (String × Option Vpc) →
    Result (List (String × Instance))
  | [], _ => .ok []
  | (k, inst) :: rest, vpcs =>
    match mapGet vpcs inst.VpcId with
    | some vpc =>
      (Merge rest vpcs).bind fun out => .ok ((k, { inst with Vpc := vpc }) :: out)
    | none => .fatal (vpcNotFound inst)

/-! ## Cache predicates -/

def IsCacheEntry (entry : FileInfo) (pfx : String) : Bool :=
  entry.IsDir && stringsHasPrefix entry.Name pfx

/-- The freshness window, `time.Duration(24*60*60) * time.Second`, in nanoseconds. -/
def expiresIn : Int := 24 * 60 * 60 * 1000000000

/-- `IsExpired`, with the value of `time.Now()` as the parameter `now`. -/
def IsExpired (now : Int) (entry : FileInfo) : Bool :=
  decide (entry.ModTime + expiresIn < now)

/-! ## Library model: the fragment of `text/template` that renders string fields -/

def leftBrace : Char := Char.ofNat 123
def rightBrace : Char := Char.ofNat 125

/-- A parsed template: literal text, and actions between the delimiters. -/
inductive TemplateNode where
  | text (s : List Char)
  | action (body : List Char)
deriving DecidableEq

/-- The lexer: text up to a doubled left brace, an action up to a doubled right
brace. An action left open at the end of the input is a parse error. -/
def lexTemplate : Bool → List Char → List Char → Result (List TemplateNode)
  | inAction, acc, [] =>
    if inAction then .fatal "template: fqdn: unclosed action"
    else .ok [.text acc.reverse]
  | inAction, acc, [c] =>
    if inAction then .fatal "template: fqdn: unclosed action"
    else .ok [.text (c :: acc).reverse]
  | inAction, acc, c :: d :: rest =>
    if !inAction && c = leftBrace && d = leftBrace then
      (lexTemplate true [] rest).bind fun nodes => .ok (.text acc.reverse :: nodes)
    else if inAction && c = rightBrace && d = rightBrace then
      (lexTemplate false [] rest).bind fun nodes => .ok (.action acc.reverse :: nodes)
    else lexTemplate inAction (c :: acc) (d :: rest)

def trimSpaces (l : List Char) : List Char :=
  ((l.dropWhile (· = ' ')).reverse.dropWhile (· = ' ')).reverse

def isFieldName : List Char → Bool
  | [] => false
  | c :: cs => (c.isAlpha || c = '_') && cs.all (fun d => d.isAlphanum || d = '_')

/-- An action that is a chain of fields of dot, `.A.B`; `none` for any other action. -/
def parseFieldChain (body : List Char) : Option (List String) :=
  match trimSpaces body with
  | [] => none
  | c :: cs =>
    if c = '.' ∧ (splitRunes '.' cs).all isFieldName then
      some ((splitRunes '.' cs).map String.mk)
    else none

/-- The value of a field chain of a `*Instance`, for the chains that end in a
string; reaching through a nil `Vpc` is an execution error. -/
def evalFieldChain (i : Instance) (chain : List String) : Result String :=
  if chain = ["InstanceId"] then .ok i.InstanceId
  else if chain = ["Name"] then .ok i.Name
  else if chain = ["VpcId"] then .ok i.VpcId
  else
    match i.Vpc with
    | none =>
      if chain = ["Vpc", "VpcId"] ∨ chain = ["Vpc", "Name"] ∨ chain = ["Vpc", "ShortName"] then
        .fatal "template: fqdn: nil pointer evaluating *main.Vpc"
      else .unmodelled "template action"
    | some vpc =>
      if chain = ["Vpc", "VpcId"] then .ok vpc.VpcId
      else if chain = ["Vpc", "Name"] then .ok vpc.Name
      else if chain = ["Vpc", "ShortName"] then .ok vpc.ShortName
      else .unmodelled "template action"

/-- Model of `tmpl.Execute(&buf, i)`: text is copied, a string value is printed as it is. -/
def templateExecute (i : Instance) : List TemplateNode → Result String
  | [] => .ok ""
  | .text s :: rest =>
    (templateExecute i rest).bind fun out => .ok (String.mk s ++ out)
  | .action body :: rest =>
    match parseFieldChain body with
    | none => .unmodelled "template action"
    | some chain =>
      (evalFieldChain i chain).bind fun v =>
      (templateExecute i rest).bind fun out => .ok (v ++ out)

/-- `Instance.Fqdn`: parse `config.TemplateFqdn`, execute it on the instance. -/
def Fqdn (i : Instance) (config : Config) : Result String :=
  (lexTemplate false [] config.TemplateFqdn.data).bind fun tmpl =>
  templateExecute i tmpl

/-! ## Decoding a selection: `buildFqdns` -/

/-- The first half of the loop body of `buildFqdns`: `fields[2]` of the
selection split on spaces, looked up in the instance map. -/
def selectInstance (readOutput : ReadOutput) (selection : String) : Result Instance :=
  match (stringsSplit selection ' ').get? 2 with
  | none => .panic "index out of range [2]"
  | some instanceId =>
    match mapGet readOutput.Instances instanceId with
    | none => .fatal ("instance (instance_id=" ++ instanceId ++ ") not found\n")
    | some inst => .ok inst

/-- The loop of `buildFqdns` over the lines of the selector's output. -/
def buildFqdnsLoop (config : Config) (readOutput : ReadOutput) : List String → Result (List String)
  | [] => .ok []
  | selection :: rest =>
    if selection.data.length = 0 then buildFqdnsLoop config readOutput rest
    else
      (selectInstance readOutput selection).bind fun inst =>
      (Fqdn inst config).bind fun fqdn =>
      (buildFqdnsLoop config readOutput rest).bind fun fqdns =>
      .ok (fqdn :: fqdns)

def buildFqdns (config : Config) (readOutput : ReadOutput) (pecoResult : String) :
    Result (List String) :=
  buildFqdnsLoop config readOutput (stringsSplit pecoResult '\n')

/-! ## The outside world -/

structure Ec2Tag where
  Key : Option String
  Value : Option String
deriving DecidableEq

/-- The fields of `ec2.Instance` the conversion reads. -/
structure Ec2Instance where
  InstanceId : Option String
  Tags : List Ec2Tag
  VpcId : Option String
deriving DecidableEq

structure Ec2Reservation where
  Instances : List Ec2Instance
deriving DecidableEq

structure DescribeInstancesOutput where
  Reservations : List Ec2Reservation
deriving DecidableEq

/-- The fields of `ec2.Vpc` the conversion reads. -/
structure Ec2Vpc where
  VpcId : Option String
  Tags : List Ec2Tag
deriving DecidableEq

structure DescribeVpcsOutput where
  Vpcs : List Ec2Vpc
deriving DecidableEq

/-- What the program asks of its environment: the clock, the file system under
the cache root, the JSON decoder, and the two EC2 calls (by region). -/
structure Env where
  Now : Int
  ReadDir : String → Result (List FileInfo)
  ReadFile : String → Result String
  Unmarshal : String → Result (List (String × Instance))
  MkdirTemp : String → Result String
  WriteFile : String → Result Unit
  DescribeInstances : String → Result DescribeInstancesOutput
  DescribeVpcs : String → Result DescribeVpcsOutput

/-- What the program does to its environment. -/
inductive Effect where
  | removeAll (path : String)
  | mkdirTemp (pattern : String)
  | writeCache (path : String) (v : List (String × Instance))
deriving DecidableEq

/-- Model of `aws.StringValue`. -/
def awsStringValue : Option String → String
  | none => ""
  | some s => s

/-! ## Cache read: `readFromCache` -/

/-- The body of the `if` of `readFromCache`: read and decode the payload of an entry. -/
def loadCacheEntry (env : Env) (entry : FileInfo) : Result ReadOutput :=
  (env.ReadFile (pathJoin3 cacheDirRoot entry.Name cacheFileInstances)).bind fun cacheInstances =>
  (env.Unmarshal cacheInstances).bind fun instances =>
  .ok { IsCached := true, Instances := instances }

/-- The loop of `readFromCache` over the directory listing; `none` is the `nil` result. -/
def scanCacheEntries (env : Env) (pfx : String) : List FileInfo → Result (Option ReadOutput)
  | [] => .ok none
  | entry :: entries =>
    if IsCacheEntry entry pfx && !IsExpired env.Now entry then
      (loadCacheEntry env entry).bind fun ro => .ok (some ro)
    else scanCacheEntries env pfx entries

def readFromCache (env : Env) (pfx : String) : Result (Option ReadOutput) :=
  (env.ReadDir cacheDirRoot).bind fun entries =>
  scanCacheEntries env pfx entries

/-! ## Conversion of the fetch: `outputToInstances`, `outputToVpcs` -/

def flattenEc2Instances (output : DescribeInstancesOutput) : List Ec2Instance :=
  (output.Reservations.map (fun reservation => reservation.Instances)).flatten

/-- The state of the tag loop of `outputToInstances`. -/
structure InstanceTags where
  name : String
  tags : List (String × String)
  roles : List String
deriving DecidableEq

def scanInstanceTags : List Ec2Tag → InstanceTags → InstanceTags
  | [], st => st
  | tag :: rest, st =>
    let tagKey := awsStringValue tag.Key
    let tagValue := awsStringValue tag.Value
    scanInstanceTags rest
      { name := if tagKey = "Name" then tagValue else st.name,
        roles := if tagKey = "Role" then stringsSplit tagValue ',' else st.roles,
        tags := mapSet st.tags tagKey tagValue }

def convertInstances : List Ec2Instance → List (String × Instance) → List (String × Instance)
  | [], instances => instances
  | ec2Instance :: rest, instances =>
    let st := scanInstanceTags ec2Instance.Tags { name := "", tags := [], roles := [] }
    let instanceId := awsStringValue ec2Instance.InstanceId
    convertInstances rest (mapSet instances instanceId
      { InstanceId := instanceId, Tags := st.tags, Name := st.name, Roles := st.roles,
        VpcId := awsStringValue ec2Instance.VpcId, Vpc := none })

def outputToInstances (output : DescribeInstancesOutput) : List (String × Instance) :=
  convertInstances (flattenEc2Instances output) []

/-- The state of the tag loop of `outputToVpcs`. -/
structure VpcTags where
  name : String
  shortName : String
  tags : List (String × String)
deriving DecidableEq

def scanVpcTags : List Ec2Tag → VpcTags → VpcTags
  | [], st => st
  | tag :: rest, st =>
    let tagKey := awsStringValue tag.Key
    let tagValue := awsStringValue tag.Value
    scanVpcTags rest
      { name := if tagKey = "Name" then tagValue else st.name,
        shortName := if tagKey = "ShortName" then tagValue else st.shortName,
        tags := mapSet st.tags tagKey tagValue }

def convertVpcs : List Ec2Vpc → List (String × Option Vpc) → List (String × Option Vpc)
  | [], vpcs => vpcs
  | output :: rest, vpcs =>
    let st := scanVpcTags output.Tags { name := "", shortName := "", tags := [] }
    let vpcId := awsStringValue output.VpcId
    convertVpcs rest (mapSet vpcs vpcId
      (some { VpcId := vpcId, Tags := st.tags, Name := st.name, ShortName := st.shortName }))

def outputToVpcs (output : DescribeVpcsOutput) : List (String × Option Vpc) :=
  convertVpcs output.Vpcs []

/-! ## Fetch and cache write: `describeInstances`, `writeCache`, `readInstances` -/

def describeInstances (env : Env) (config : Config) : Result (List (String × Instance)) :=
  (env.DescribeInstances config.Region).bind fun describedInstancesOutput =>
  let instances := outputToInstances describedInstancesOutput
  (env.DescribeVpcs config.Region).bind fun describedVpcsOutput =>
  let vpcs := outputToVpcs describedVpcsOutput
  Merge instances vpcs

/-- `writeCache`: the value `v` is marshalled and written to `tmpDir/fileName`. -/
def writeCache (env : Env) (tmpDir fileName : String) (v : List (String × Instance)) :
    List Effect × Result Unit :=
  ([Effect.writeCache (pathJoin2 tmpDir fileName) v], env.WriteFile (pathJoin2 tmpDir fileName))

/-- The cache-miss path of `readInstances`: the statements after the `if`. -/
def fetchAndCache (env : Env) (config : Config) (pfx : String) : List Effect × Result ReadOutput :=
  let pattern := pfx ++ "-" ++ "*"
  match env.MkdirTemp pattern with
  | .ok tmpDir =>
    match describeInstances env config with
    | .ok instances =>
      match writeCache env tmpDir cacheFileInstances instances with
      | (written, .ok _) =>
        (Effect.mkdirTemp pattern :: written, .ok { IsCached := false, Instances := instances })
      | (written, .fatal m) => (Effect.mkdirTemp pattern :: written, .fatal m)
      | (written, .panic m) => (Effect.mkdirTemp pattern :: written, .panic m)
      | (written, .unmodelled m) => (Effect.mkdirTemp pattern :: written, .unmodelled m)
    | .fatal m => ([Effect.mkdirTemp pattern], .fatal m)
    | .panic m => ([Effect.mkdirTemp pattern], .panic m)
    | .unmodelled m => ([Effect.mkdirTemp pattern], .unmodelled m)
  | .fatal m => ([Effect.mkdirTemp pattern], .fatal m)
  | .panic m => ([Effect.mkdirTemp pattern], .panic m)
  | .unmodelled m => ([Effect.mkdirTemp pattern], .unmodelled m)

def readInstances (env : Env) (config : Config) : List Effect × Result ReadOutput :=
  let pfx := "go-awssh" ++ "-" ++ version ++ "-" ++ config.Region
  if config.PurgeCache then
    let (effects, out) := fetchAndCache env config pfx
    (Effect.removeAll cacheDirRoot :: effects, out)
  else
    match readFromCache env pfx with
    | .ok (some cached) => ([], .ok cached)
    | .ok none => fetchAndCache env config pfx
    | .fatal m => ([], .fatal m)
    | .panic m => ([], .panic m)
    | .unmodelled m => ([], .unmodelled m)

/-! ## Data of `main_test.go` and of the examples -/

/-- An instance with the zero value in every field. -/
def zeroInstance : Instance :=
  { InstanceId := "", Tags := [], Name := "", Roles := [], VpcId := "", Vpc := none }

/-- A VPC with the zero value in every field but its name. -/
def vpcNamed (name : String) : Vpc :=
  { VpcId := "", Tags := [], Name := name, ShortName := "" }

def fooInstance : Instance :=
  { zeroInstance with InstanceId := "fooId", Name := "fooName", Vpc := some (vpcNamed "fooVpcName") }

def barInstance : Instance :=
  { zeroInstance with InstanceId := "barId", Name := "barName", Vpc := some (vpcNamed "barVpcName") }

/-- The map of the case "with two Instance" of `TestReadOutputBuildCandidates`. -/
def twoInstances : List (String × Instance) :=
  [("fooId", fooInstance), ("barId", barInstance)]

/-- A map whose only key holds a space. -/
def spacedKeyInstances : List (String × Instance) :=
  [("a b", { zeroInstance with InstanceId := "a b", Name := "n", Vpc := some (vpcNamed "v") })]

/-- A map whose only instance has a line feed in its `Name` tag. -/
def twoLineNameInstances : List (String × Instance) :=
  [("i", { zeroInstance with InstanceId := "i", Name := "z\na", Vpc := some (vpcNamed "v") })]

/-- An environment for the cache read: the clock reads `now`, the cache root
lists `entries`, every payload file holds its own path, and a payload decodes to
one zero instance stored under that text, so that a decoded payload tells which
entry it was read from. Nothing else is available. -/
def cacheEnv (now : Int) (entries : List FileInfo) : Env :=
  { Now := now,
    ReadDir := fun dir => if dir = cacheDirRoot then .ok entries else .fatal "no such directory",
    ReadFile := fun path => .ok path,
    Unmarshal := fun content => .ok [(content, zeroInstance)],
    MkdirTemp := fun _ => .fatal "read-only file system",
    WriteFile := fun _ => .fatal "read-only file system",
    DescribeInstances := fun _ => .fatal "no network",
    DescribeVpcs := fun _ => .fatal "no network" }

/-- A listing of three entries modified at time 0: a regular file and two directories. -/
def threeEntries : List FileInfo :=
  [{ Name := "p-file", IsDir := false, ModTime := 0 },
   { Name := "p-a", IsDir := true, ModTime := 0 },
   { Name := "p-b", IsDir := true, ModTime := 0 }]

/-- A running instance `i-1`, tagged `Name=web`, in the VPC `vpc-1`. -/
def rawInstance : Ec2Instance :=
  { InstanceId := some "i-1", Tags := [{ Key := some "Name", Value := some "web" }],
    VpcId := some "vpc-1" }

/-- The VPC `vpc-1`, tagged `Name=main`. -/
def rawVpc : Ec2Vpc :=
  { VpcId := some "vpc-1", Tags := [{ Key := some "Name", Value := some "main" }] }

/-- An environment for a fetch: the cache root is empty, the region has the one
running instance `rawInstance` and the one VPC `rawVpc`. -/
def fetchEnv : Env :=
  { Now := 0,
    ReadDir := fun _ => .ok [],
    ReadFile := fun _ => .fatal "no such file",
    Unmarshal := fun _ => .fatal "unexpected end of JSON input",
    MkdirTemp := fun _ => .ok "/tmp/go-awssh-v0.1.0-us-east-1-1",
    WriteFile := fun _ => .ok (),
    DescribeInstances := fun _ => .ok (DescribeInstancesOutput.mk [Ec2Reservation.mk [rawInstance]]),
    DescribeVpcs := fun _ => .ok (DescribeVpcsOutput.mk [rawVpc]) }

def fetchConfig : Config :=
  { PurgeCache := false, Region := "us-east-1", SshBin := "ssh", TemplateFqdn := "" }

/-- The instance `i-1` of `fetchEnv` after the join. -/
def fetchedInstance : Instance :=
  { InstanceId := "i-1", Tags := [("Name", "web")], Name := "web", Roles := [],
    VpcId := "vpc-1",
    Vpc := some { VpcId := "vpc-1", Tags := [("Name", "main")], Name := "main", ShortName := "" } }

/-- The instance map of the case "multiple matches" of `TestMerge`. -/
def mergeInstances : List (String × Instance) :=
  [("fooInstanceId", { zeroInstance with VpcId := "fooVpcId" }),
   ("barInstanceId", { zeroInstance with VpcId := "barVpcId" })]

def fooVpc : Vpc := { VpcId := "fooVpcId", Tags := [], Name := "fooVpcName", ShortName := "" }

def barVpc : Vpc := { VpcId := "barVpcId", Tags := [], Name := "barVpcName", ShortName := "" }

/-- The VPC map of the case "multiple matches" of `TestMerge`. -/
def mergeVpcs : List (String × Option Vpc) :=
  [("fooVpcId", some fooVpc), ("barVpcId", some barVpc)]

/-- Two instances, the second of which is in a VPC that `danglingVpcs` lacks. -/
def danglingInstances : List (String × Instance) :=
  [("i-1", { zeroInstance with InstanceId := "i-1", VpcId := "fooVpcId" }),
   ("i-2", { zeroInstance with InstanceId := "i-2", VpcId := "vpc-9" })]

def danglingVpcs : List (String × Option Vpc) := [("fooVpcId", some fooVpc)]

/-- The entry `DirFileInfoMock` of `main_test.go` with the name "foo-bar-123". -/
def dirMock : FileInfo := { Name := "foo-bar-123", IsDir := true, ModTime := 0 }

/-- The entry `TempfsFileInfoMock` of `main_test.go` with the name "foo-bar-123". -/
def tempfsMock : FileInfo := { Name := "foo-bar-123", IsDir := false, ModTime := 0 }

/-! # Theorems -/

/-! ## Lemmas on results and maps -/

@[simp] theorem Result.bind_ok {α β : Type} (v : α) (f : α → Result β) :
    (Result.ok v).bind f = f v := rfl

@[simp] theorem Result.bind_fatal {α β : Type} (m : String) (f : α → Result β) :
    (Result.fatal m : Result α).bind f = .fatal m := rfl

@[simp] theorem Result.bind_panic {α β : Type} (m : String) (f : α → Result β) :
    (Result.panic m : Result α).bind f = .panic m := rfl

@[simp] theorem Result.bind_unmodelled {α β : Type} (m : String) (f : α → Result β) :
    (Result.unmodelled m : Result α).bind f = .unmodelled m := rfl

theorem mapGet_eq_none_iff {β : Type} (m : List (String × β)) (key : String) :
    mapGet m key = none ↔ key ∉ m.map Prod.fst := by
  induction m with
  | nil => simp [mapGet]
  | cons p rest ih =>
    obtain ⟨k, v⟩ := p
    by_cases hk : k = key
    · simp [mapGet, hk]
    · have hk' : ¬ key = k := fun e => hk e.symm
      simp [mapGet, hk, hk', ih]

theorem mapGet_isSome_of_mem_keys {β : Type} (m : List (String × β)) (key : String)
    (h : key ∈ m.map Prod.fst) : ∃ v, mapGet m key = some v := by
  cases hg : mapGet m key with
  | none => exact absurd h ((mapGet_eq_none_iff m key).1 hg)
  | some v => exact ⟨v, rfl⟩

theorem mapGet_of_mem {β : Type} (m : List (String × β)) (hnd : (m.map Prod.fst).Nodup)
    (key : String) (v : β) (h : (key, v) ∈ m) : mapGet m key = some v := by
  induction m with
  | nil => simp at h
  | cons p rest ih =>
    obtain ⟨k, w⟩ := p
    simp only [List.map_cons, List.nodup_cons] at hnd
    rcases List.mem_cons.1 h with heq | hmem
    · cases heq
      simp [mapGet]
    · have hne : k ≠ key := by
        intro e
        apply hnd.1
        rw [e]
        exact List.mem_map_of_mem Prod.fst hmem
      simp [mapGet, hne, ih hnd.2 hmem]

/-! ## The join: `Merge` -/

/-- C1. When the VpcId of every instance is a key of the VPC map, `Merge` returns:
the result has the same keys in the same places, the `Vpc` of every instance is
the VPC map's entry for its `VpcId`, and its other fields are unchanged. -/
theorem Merge_attaches_every_vpc (instances : List (String × Instance))
    (vpcs : List (String × Option Vpc))
    (h : ∀ p ∈ instances, p.2.VpcId ∈ vpcs.map Prod.fst) :
    ∃ out, Merge instances vpcs = .ok out ∧
      out.map Prod.fst = instances.map Prod.fst ∧
      List.Forall₂ (fun p q => q.1 = p.1 ∧
        mapGet vpcs p.2.VpcId = some q.2.Vpc ∧
        q.2.InstanceId = p.2.InstanceId ∧ q.2.Tags = p.2.Tags ∧ q.2.Name = p.2.Name ∧
        q.2.Roles = p.2.Roles ∧ q.2.VpcId = p.2.VpcId) instances out := by
  induction instances with
  | nil => exact ⟨[], rfl, rfl, List.Forall₂.nil⟩
  | cons p rest ih =>
    obtain ⟨k, inst⟩ := p
    obtain ⟨out, hout, hkeys, hall⟩ := ih (fun q hq => h q (List.mem_cons_of_mem _ hq))
    obtain ⟨vpc, hvpc⟩ := mapGet_isSome_of_mem_keys vpcs inst.VpcId (h (k, inst) (List.mem_cons_self _ _))
    refine ⟨(k, { inst with Vpc := vpc }) :: out, ?_, ?_, ?_⟩
    · simp [Merge, hvpc, hout]
    · simp [hkeys]
    · exact List.Forall₂.cons ⟨rfl, hvpc, rfl, rfl, rfl, rfl, rfl⟩ hall

/-- Witness of C1: the case "multiple matches" of `TestMerge`. -/
theorem Merge_attaches_every_vpc_witness :
    (∃ out, Merge mergeInstances mergeVpcs = .ok out ∧
      out.map Prod.fst = mergeInstances.map Prod.fst ∧
      List.Forall₂ (fun p q => q.1 = p.1 ∧
        mapGet mergeVpcs p.2.VpcId = some q.2.Vpc ∧
        q.2.InstanceId = p.2.InstanceId ∧ q.2.Tags = p.2.Tags ∧ q.2.Name = p.2.Name ∧
        q.2.Roles = p.2.Roles ∧ q.2.VpcId = p.2.VpcId) mergeInstances out) ∧
    Merge mergeInstances mergeVpcs =
      .ok [("fooInstanceId", { zeroInstance with VpcId := "fooVpcId", Vpc := some fooVpc }),
           ("barInstanceId", { zeroInstance with VpcId := "barVpcId", Vpc := some barVpc })] :=
  ⟨Merge_attaches_every_vpc mergeInstances mergeVpcs (by decide), by decide⟩

theorem Merge_fatal_of_missing (instances : List (String × Instance))
    (vpcs : List (String × Option Vpc))
    (h : ∃ p ∈ instances, p.2.VpcId ∉ vpcs.map Prod.fst) :
    ∃ p ∈ instances, p.2.VpcId ∉ vpcs.map Prod.fst ∧
      Merge instances vpcs = .fatal (vpcNotFound p.2) := by
  induction instances with
  | nil => obtain ⟨p, hp, _⟩ := h; simp at hp
  | cons q rest ih =>
    obtain ⟨k, inst⟩ := q
    cases hg : mapGet vpcs inst.VpcId with
    | none =>
      exact ⟨(k, inst), List.mem_cons_self _ _, (mapGet_eq_none_iff _ _).1 hg, by simp [Merge, hg]⟩
    | some vpc =>
      have hrest : ∃ p ∈ rest, p.2.VpcId ∉ vpcs.map Prod.fst := by
        obtain ⟨p, hp, hmiss⟩ := h
        rcases List.mem_cons.1 hp with heq | hmem
        · subst heq
          exact absurd hg (by rw [(mapGet_eq_none_iff _ _).2 hmiss]; simp)
        · exact ⟨p, hmem, hmiss⟩
      obtain ⟨p, hp, hmiss, hm⟩ := ih hrest
      exact ⟨p, List.mem_cons_of_mem _ hp, hmiss, by simp [Merge, hg, hm]⟩

/-- C2. When the VpcId of at least one instance is not a key of the VPC map,
`Merge` ends in `log.Fatalf` in whatever order the map is enumerated, and the
message carries the InstanceId and the VpcId of an instance whose VpcId is missing. -/
theorem Merge_aborts_on_missing_vpc (instances enumerated : List (String × Instance))
    (vpcs : List (String × Option Vpc)) (horder : enumerated.Perm instances)
    (h : ∃ p ∈ instances, p.2.VpcId ∉ vpcs.map Prod.fst) :
    ∃ p ∈ instances, p.2.VpcId ∉ vpcs.map Prod.fst ∧
      Merge enumerated vpcs = .fatal ("Vpc not found for instance_id=" ++ p.2.InstanceId ++
        ", vpc_id=" ++ p.2.VpcId ++ "\n") := by
  obtain ⟨p, hp, hmiss⟩ := h
  obtain ⟨q, hq, hqmiss, hm⟩ :=
    Merge_fatal_of_missing enumerated vpcs ⟨p, horder.mem_iff.2 hp, hmiss⟩
  exact ⟨q, horder.mem_iff.1 hq, hqmiss, hm⟩

/-- Witness of C2: the instance `i-2` is in the VPC `vpc-9`, which the VPC map
lacks; `Merge` ends with the same message in both orders of enumeration. -/
theorem Merge_aborts_on_missing_vpc_witness :
    (∃ p ∈ danglingInstances, p.2.VpcId ∉ danglingVpcs.map Prod.fst ∧
      Merge danglingInstances.reverse danglingVpcs =
        .fatal ("Vpc not found for instance_id=" ++ p.2.InstanceId ++
          ", vpc_id=" ++ p.2.VpcId ++ "\n")) ∧
    Merge danglingInstances danglingVpcs =
      .fatal "Vpc not found for instance_id=i-2, vpc_id=vpc-9\n" ∧
    Merge danglingInstances.reverse danglingVpcs =
      .fatal "Vpc not found for instance_id=i-2, vpc_id=vpc-9\n" :=
  ⟨Merge_aborts_on_missing_vpc danglingInstances danglingInstances.reverse danglingVpcs
      (List.reverse_perm danglingInstances)
      ⟨("i-2", { zeroInstance with InstanceId := "i-2", VpcId := "vpc-9" }), by decide, by decide⟩,
    by decide, by decide⟩

/-! ## Cache candidates: `IsCacheEntry` -/

/-- C7. `IsCacheEntry` is true exactly for a directory whose name starts with the
prefix: never for a non-directory, never for a name without the prefix, and for
every directory when the prefix is empty. -/
theorem IsCacheEntry_iff_dir_and_named (entry : FileInfo) (pfx : String) :
    (IsCacheEntry entry pfx = true ↔
      entry.IsDir = true ∧ ∃ suffix : String, entry.Name = pfx ++ suffix) ∧
    (entry.IsDir = false → IsCacheEntry entry pfx = false) ∧
    (entry.IsDir = false → IsCacheEntry entry "" = false) ∧
    ((¬ ∃ suffix : String, entry.Name = pfx ++ suffix) → IsCacheEntry entry pfx = false) ∧
    (entry.IsDir = true → IsCacheEntry entry "" = true) := by
  have key : ∀ p : String, stringsHasPrefix entry.Name p = true ↔ ∃ suffix : String, entry.Name = p ++ suffix := by
    intro p
    unfold stringsHasPrefix
    rw [List.isPrefixOf_iff_prefix]
    constructor
    · rintro ⟨t, ht⟩
      exact ⟨⟨t⟩, String.ext (by simp [ht])⟩
    · rintro ⟨t, ht⟩
      exact ⟨t.data, by simp [ht]⟩
  refine ⟨?_, ?_, ?_, ?_, ?_⟩
  · simp [IsCacheEntry, key]
  · intro h; simp [IsCacheEntry, h]
  · intro h; simp [IsCacheEntry, h]
  · intro h
    have : stringsHasPrefix entry.Name pfx = false := by
      cases hh : stringsHasPrefix entry.Name pfx with
      | false => rfl
      | true => exact absurd ((key pfx).1 hh) h
    simp [IsCacheEntry, this]
  · intro h
    have : stringsHasPrefix entry.Name "" = true := (key "").2 ⟨entry.Name, by simp⟩
    simp [IsCacheEntry, h, this]

/-- Witness of C7: the cases of `TestIsCacheEntry` on the name "foo-bar-123". -/
theorem IsCacheEntry_iff_dir_and_named_witness :
    IsCacheEntry dirMock "foo-bar" = true ∧ IsCacheEntry tempfsMock "foo-bar" = false ∧
    IsCacheEntry tempfsMock "" = false ∧ IsCacheEntry dirMock "buz" = false ∧
    IsCacheEntry dirMock "" = true :=
  ⟨(IsCacheEntry_iff_dir_and_named dirMock "foo-bar").1.2 ⟨rfl, "-123", by decide⟩,
    (IsCacheEntry_iff_dir_and_named tempfsMock "foo-bar").2.1 rfl,
    (IsCacheEntry_iff_dir_and_named tempfsMock "").2.2.1 rfl,
    by decide,
    (IsCacheEntry_iff_dir_and_named dirMock "").2.2.2.2 rfl⟩

/-! ## Lemmas on the order of strings and on `sortStrings` -/

theorem char_lt_iff_toNat (a b : Char) : a < b ↔ a.toNat < b.toNat := by
  rw [Char.lt_iff_val_lt_val]
  exact Iff.rfl

theorem char_toNat_inj (a b : Char) : a.toNat = b.toNat ↔ a = b := by
  constructor
  · intro h
    have := congrArg Char.ofNat h
    simpa using this
  · intro h; rw [h]

theorem lex_cons_cons_iff (a b : Char) (as bs : List Char) :
    List.Lex (· < ·) (a :: as) (b :: bs) ↔ a < b ∨ (a = b ∧ List.Lex (· < ·) as bs) := by
  constructor
  · intro h
    cases h with
    | cons h => exact Or.inr ⟨rfl, h⟩
    | rel h => exact Or.inl h
  · rintro (h | ⟨rfl, h⟩)
    · exact List.Lex.rel h
    · exact List.Lex.cons h

theorem runesLess_iff_lex (a b : List Char) :
    runesLess a b = true ↔ List.Lex (· < ·) a b := by
  induction a generalizing b with
  | nil =>
    cases b with
    | nil => simp [runesLess, List.Lex.not_nil_right]
    | cons c cs => simp [runesLess, List.Lex.nil]
  | cons x xs ih =>
    cases b with
    | nil => simp [runesLess, List.Lex.not_nil_right]
    | cons c cs =>
      rw [lex_cons_cons_iff, ← ih cs, char_lt_iff_toNat, ← char_toNat_inj]
      simp [runesLess]

theorem stringLess_iff_lt (a b : String) : stringLess a b = true ↔ a < b := by
  rw [String.lt_iff_toList_lt]
  unfold stringLess
  rw [runesLess_iff_lex]
  exact Iff.rfl

theorem stringLess_eq_false_iff_le (a b : String) : stringLess b a = false ↔ a ≤ b := by
  rw [← not_lt, ← stringLess_iff_lt]
  simp

theorem sortStrings_eq (l : List String) : sortStrings l = l.insertionSort (· ≤ ·) := by
  unfold sortStrings
  induction l with
  | nil => rfl
  | cons a l ih =>
    simp only [List.insertionSort]
    rw [ih]
    generalize l.insertionSort (· ≤ ·) = m
    induction m with
    | nil => rfl
    | cons b m ihm =>
      simp only [List.orderedInsert]
      by_cases h : a ≤ b
      · have h' : stringLess b a = false := (stringLess_eq_false_iff_le a b).2 h
        simp [h, h']
      · have h' : ¬ stringLess b a = false := fun e => h ((stringLess_eq_false_iff_le a b).1 e)
        simp [h, h', ihm]

theorem sortStrings_sorted (l : List String) : (sortStrings l).Sorted (· ≤ ·) := by
  rw [sortStrings_eq]; exact List.sorted_insertionSort _ l

theorem sortStrings_perm (l : List String) : (sortStrings l).Perm l := by
  rw [sortStrings_eq]; exact List.perm_insertionSort _ l

theorem sortStrings_congr {l₁ l₂ : List String} (h : l₁.Perm l₂) :
    sortStrings l₁ = sortStrings l₂ :=
  List.eq_of_perm_of_sorted
    (((sortStrings_perm l₁).trans h).trans (sortStrings_perm l₂).symm)
    (sortStrings_sorted l₁) (sortStrings_sorted l₂)

/-! ## Lemmas on splitting and joining -/

theorem splitRunes_of_not_mem (sep : Char) (a : List Char) (h : sep ∉ a) :
    splitRunes sep a = [a] := by
  induction a with
  | nil => rfl
  | cons c cs ih =>
    have hc : c ≠ sep := fun e => h (by simp [e])
    have hcs : sep ∉ cs := fun e => h (List.mem_cons_of_mem _ e)
    simp [splitRunes, hc, ih hcs]

theorem splitRunes_append_sep (sep : Char) (a rest : List Char) (h : sep ∉ a) :
    splitRunes sep (a ++ sep :: rest) = a :: splitRunes sep rest := by
  induction a with
  | nil => simp [splitRunes]
  | cons c cs ih =>
    have hc : c ≠ sep := fun e => h (by simp [e])
    have hcs : sep ∉ cs := fun e => h (List.mem_cons_of_mem _ e)
    simp [splitRunes, hc, ih hcs]

theorem stringsJoin_cons_cons (a b : String) (rest : List String) (sep : String) :
    stringsJoin (a :: b :: rest) sep = a ++ sep ++ stringsJoin (b :: rest) sep := rfl

theorem splitRunes_stringsJoin (lines : List String) (hne : lines ≠ [])
    (h : ∀ line ∈ lines, '\n' ∉ line.data) :
    splitRunes '\n' (stringsJoin lines "\n").data = lines.map String.data := by
  induction lines with
  | nil => exact absurd rfl hne
  | cons a rest ih =>
    cases rest with
    | nil =>
      simpa [stringsJoin] using splitRunes_of_not_mem '\n' a.data (h a (List.mem_cons_self _ _))
    | cons b rest =>
      have hrest := ih (by simp) (fun line hl => h line (List.mem_cons_of_mem _ hl))
      have hdata : (stringsJoin (a :: b :: rest) "\n").data =
          a.data ++ '\n' :: (stringsJoin (b :: rest) "\n").data := by
        rw [stringsJoin_cons_cons]
        simp [String.data_append]
      rw [hdata, splitRunes_append_sep _ _ _ (h a (List.mem_cons_self _ _)), hrest]
      rfl

theorem stringsSplit_stringsJoin (lines : List String) (hne : lines ≠ [])
    (h : ∀ line ∈ lines, '\n' ∉ line.data) :
    stringsSplit (stringsJoin lines "\n") '\n' = lines := by
  unfold stringsSplit
  rw [splitRunes_stringsJoin lines hne h, List.map_map]
  conv_rhs => rw [← List.map_id lines]
  rfl

theorem truncateRunes_of_length_le (n : Nat) (s : String) (h : s.data.length ≤ n) :
    truncateRunes n s = s := by
  unfold truncateRunes
  rw [List.take_of_length_le h]

/-- The code points of a candidate line. -/
theorem candidate_data (name vpcName instanceId : String) :
    (truncateRunes 30 name ++ " " ++ truncateRunes 10 vpcName ++ " " ++ instanceId).data =
      name.data.take 30 ++ ' ' :: (vpcName.data.take 10 ++ ' ' :: instanceId.data) := by
  simp [String.data_append, truncateRunes]

theorem stringsSplit_candidate (name vpcName instanceId : String)
    (hn : ' ' ∉ name.data) (hv : ' ' ∉ vpcName.data) (hi : ' ' ∉ instanceId.data) :
    stringsSplit (truncateRunes 30 name ++ " " ++ truncateRunes 10 vpcName ++ " " ++ instanceId)
      ' ' = [truncateRunes 30 name, truncateRunes 10 vpcName, instanceId] := by
  unfold stringsSplit
  rw [candidate_data,
    splitRunes_append_sep _ _ _ (fun hc => hn (List.mem_of_mem_take hc)),
    splitRunes_append_sep _ _ _ (fun hc => hv (List.mem_of_mem_take hc)),
    splitRunes_of_not_mem _ _ hi]
  rfl

/-! ## Lemmas on the candidate loop -/

theorem candidateLine_of_vpc (instanceId : String) (inst : Instance) (vpc : Vpc)
    (h : inst.Vpc = some vpc) :
    candidateLine instanceId inst =
      .ok (truncateRunes 30 inst.Name ++ " " ++ truncateRunes 10 vpc.Name ++ " " ++ instanceId) := by
  simp [candidateLine, h]

theorem collectCandidates_resolved (instances : List (String × Instance))
    (h : ∀ p ∈ instances, ∃ vpc, p.2.Vpc = some vpc) :
    collectCandidates instances = .ok (instances.map fun p =>
      truncateRunes 30 p.2.Name ++ " " ++
        truncateRunes 10 ((p.2.Vpc.map Vpc.Name).getD "") ++ " " ++ p.1) := by
  induction instances with
  | nil => rfl
  | cons p rest ih =>
    obtain ⟨k, inst⟩ := p
    obtain ⟨vpc, hvpc⟩ := h (k, inst) (List.mem_cons_self _ _)
    have hv : inst.Vpc = some vpc := hvpc
    simp [collectCandidates, candidateLine_of_vpc k inst vpc hv,
      ih (fun q hq => h q (List.mem_cons_of_mem _ hq)), hv]

theorem BuildCandidates_resolved (ro : ReadOutput)
    (h : ∀ p ∈ ro.Instances, ∃ vpc, p.2.Vpc = some vpc) :
    BuildCandidates ro = .ok (stringsJoin (sortStrings (ro.Instances.map fun p =>
      truncateRunes 30 p.2.Name ++ " " ++
        truncateRunes 10 ((p.2.Vpc.map Vpc.Name).getD "") ++ " " ++ p.1)) "\n") := by
  simp only [BuildCandidates, collectCandidates_resolved ro.Instances h, Result.bind_ok]

theorem collectCandidates_unresolved (instances : List (String × Instance))
    (h : ∃ p ∈ instances, p.2.Vpc = none) :
    collectCandidates instances = .panic "invalid memory address or nil pointer dereference" := by
  induction instances with
  | nil => obtain ⟨p, hp, _⟩ := h; simp at hp
  | cons q rest ih =>
    obtain ⟨k, inst⟩ := q
    cases hv : inst.Vpc with
    | none => simp [collectCandidates, candidateLine, hv]
    | some vpc =>
      have hrest : ∃ p ∈ rest, p.2.Vpc = none := by
        obtain ⟨p, hp, hnone⟩ := h
        rcases List.mem_cons.1 hp with heq | hmem
        · subst heq
          simp [hv] at hnone
        · exact ⟨p, hmem, hnone⟩
      simp [collectCandidates, candidateLine, hv, ih hrest]

theorem resolved_or_not (instances : List (String × Instance)) :
    (∀ p ∈ instances, ∃ vpc, p.2.Vpc = some vpc) ∨ (∃ p ∈ instances, p.2.Vpc = none) := by
  by_cases h : ∃ p ∈ instances, p.2.Vpc = none
  · exact Or.inr h
  · left
    intro p hp
    cases hv : p.2.Vpc with
    | none => exact absurd ⟨p, hp, hv⟩ h
    | some vpc => exact ⟨vpc, rfl⟩

theorem BuildCandidates_perm (c₁ c₂ : Bool) (l₁ l₂ : List (String × Instance))
    (h : l₁.Perm l₂) :
    BuildCandidates { IsCached := c₁, Instances := l₁ } =
      BuildCandidates { IsCached := c₂, Instances := l₂ } := by
  unfold BuildCandidates
  rcases resolved_or_not l₁ with hres | hun
  · have hres₂ : ∀ p ∈ l₂, ∃ vpc, p.2.Vpc = some vpc := fun p hp => hres p (h.mem_iff.2 hp)
    simp only [collectCandidates_resolved l₁ hres, collectCandidates_resolved l₂ hres₂,
      Result.bind_ok]
    rw [sortStrings_congr (h.map _)]
  · have hun₂ : ∃ p ∈ l₂, p.2.Vpc = none := by
      obtain ⟨p, hp, hn⟩ := hun
      exact ⟨p, h.mem_iff.1 hp, hn⟩
    simp [collectCandidates_unresolved l₁ hun, collectCandidates_unresolved l₂ hun₂]

/-! ## The candidate codec -/

/-- C4. When every instance has a resolved network group, `BuildCandidates`
returns the join of one line per map entry (the empty string for the empty map);
the line of the entry with key `id` is the first at most 30 characters of `Name`,
a space, the first at most 10 characters of `Vpc.Name`, a space and `id`, which is
`Name ++ " " ++ Vpc.Name ++ " " ++ id` when neither name is longer than its
field; the one-instance map of the test gives "fooName fooVpcName fooId". -/
theorem BuildCandidates_one_line_per_entry (ro : ReadOutput)
    (hvpc : ∀ p ∈ ro.Instances, p.2.Vpc ≠ none) :
    (∃ lines, BuildCandidates ro = .ok (stringsJoin lines "\n") ∧
      lines.length = ro.Instances.length ∧
      lines.Perm (ro.Instances.map fun p =>
        String.mk (p.2.Name.data.take 30) ++ " " ++
          String.mk (((p.2.Vpc.map Vpc.Name).getD "").data.take 10) ++ " " ++ p.1)) ∧
    (∀ p ∈ ro.Instances, ∀ vpc, p.2.Vpc = some vpc →
      p.2.Name.data.length ≤ 30 → vpc.Name.data.length ≤ 10 →
      String.mk (p.2.Name.data.take 30) ++ " " ++
          String.mk (((p.2.Vpc.map Vpc.Name).getD "").data.take 10) ++ " " ++ p.1 =
        p.2.Name ++ " " ++ vpc.Name ++ " " ++ p.1) ∧
    (ro.Instances = [] → BuildCandidates ro = .ok "") ∧
    BuildCandidates { IsCached := false, Instances := [("fooId", fooInstance)] } =
      .ok "fooName fooVpcName fooId" := by
  have hres : ∀ p ∈ ro.Instances, ∃ vpc, p.2.Vpc = some vpc :=
    fun p hp => Option.ne_none_iff_exists'.1 (hvpc p hp)
  refine ⟨⟨sortStrings (ro.Instances.map fun p =>
      truncateRunes 30 p.2.Name ++ " " ++
        truncateRunes 10 ((p.2.Vpc.map Vpc.Name).getD "") ++ " " ++ p.1), ?_, ?_, ?_⟩,
    ?_, ?_, by decide⟩
  · simp [BuildCandidates, collectCandidates_resolved ro.Instances hres]
  · rw [(sortStrings_perm _).length_eq, List.length_map]
  · exact sortStrings_perm _
  · intro p _ vpc hvpc hn hv
    have h1 : String.mk (p.2.Name.data.take 30) = p.2.Name :=
      truncateRunes_of_length_le 30 p.2.Name hn
    have h2 : String.mk (((p.2.Vpc.map Vpc.Name).getD "").data.take 10) = vpc.Name := by
      rw [hvpc]
      exact truncateRunes_of_length_le 10 vpc.Name hv
    rw [h1, h2]
  · intro hnil
    simp [BuildCandidates, hnil, collectCandidates, sortStrings, stringsJoin]

/-- Witness of C4: the two-instance map of the test. -/
theorem BuildCandidates_one_line_per_entry_witness :
    ∃ lines, BuildCandidates { IsCached := false, Instances := twoInstances } =
        .ok (stringsJoin lines "\n") ∧
      lines.length = twoInstances.length ∧
      lines.Perm (twoInstances.map fun p =>
        String.mk (p.2.Name.data.take 30) ++ " " ++
          String.mk (((p.2.Vpc.map Vpc.Name).getD "").data.take 10) ++ " " ++ p.1) :=
  (BuildCandidates_one_line_per_entry { IsCached := false, Instances := twoInstances }
    (by decide)).1

/-- C3, as stated, fails: no name holds a space, yet the line of the key "a b" is
"n v a b", whose field at index 2 is "a", which is not a key of the map. -/
theorem decode_fails_on_key_with_space :
    (∀ p ∈ spacedKeyInstances, ' ' ∉ p.2.Name.data ∧
      ∀ vpc, p.2.Vpc = some vpc → ' ' ∉ vpc.Name.data) ∧
    BuildCandidates { IsCached := false, Instances := spacedKeyInstances } = .ok "n v a b" ∧
    (stringsSplit "n v a b" ' ').get? 2 = some "a" ∧
    selectInstance { IsCached := false, Instances := spacedKeyInstances } "n v a b" =
      .fatal "instance (instance_id=a) not found\n" := by
  decide

/-- C3, amended. When every instance has a resolved network group and no instance
name, no network-group name and no key of the map holds a space, then for every
entry `(id, inst)` the line `BuildCandidates` builds for it is decoded by
`buildFqdns` (field at index 2 of the split on spaces, looked up in the map)
without failure, to `id` and to `inst`. -/
theorem decode_candidate_line (ro : ReadOutput)
    (hkeys : (ro.Instances.map Prod.fst).Nodup)
    (hres : ∀ p ∈ ro.Instances, ∃ vpc, p.2.Vpc = some vpc ∧ ' ' ∉ vpc.Name.data)
    (hname : ∀ p ∈ ro.Instances, ' ' ∉ p.2.Name.data)
    (hid : ∀ p ∈ ro.Instances, ' ' ∉ p.1.data)
    (id : String) (inst : Instance) (hmem : (id, inst) ∈ ro.Instances) :
    ∃ line, candidateLine id inst = .ok line ∧
      (∃ lines, collectCandidates ro.Instances = .ok lines ∧ line ∈ lines) ∧
      (stringsSplit line ' ').get? 2 = some id ∧
      selectInstance ro line = .ok inst := by
  obtain ⟨vpc, hvpc, hvname⟩ := hres (id, inst) hmem
  have hvpc' : inst.Vpc = some vpc := hvpc
  have hsplit := stringsSplit_candidate inst.Name vpc.Name id
    (hname (id, inst) hmem) hvname (hid (id, inst) hmem)
  refine ⟨_, candidateLine_of_vpc id inst vpc hvpc', ⟨_, collectCandidates_resolved ro.Instances
    (fun p hp => (hres p hp).imp fun _ h => h.1), ?_⟩, ?_, ?_⟩
  · refine List.mem_map.2 ⟨(id, inst), hmem, ?_⟩
    simp [hvpc']
  · rw [hsplit]; rfl
  · unfold selectInstance
    rw [hsplit]
    simp [mapGet_of_mem ro.Instances hkeys id inst hmem]

/-- Witness of C3 as amended: the line of `fooId` in the two-instance map. -/
theorem decode_candidate_line_witness :
    ∃ line, candidateLine "fooId" fooInstance = .ok line ∧
      (∃ lines, collectCandidates twoInstances = .ok lines ∧ line ∈ lines) ∧
      (stringsSplit line ' ').get? 2 = some "fooId" ∧
      selectInstance { IsCached := false, Instances := twoInstances } line = .ok fooInstance :=
  decode_candidate_line { IsCached := false, Instances := twoInstances }
    (by decide)
    (by
      intro p hp
      simp only [twoInstances, List.mem_cons, List.mem_singleton, List.not_mem_nil, or_false] at hp
      rcases hp with rfl | rfl
      · exact ⟨vpcNamed "fooVpcName", rfl, by decide⟩
      · exact ⟨vpcNamed "barVpcName", rfl, by decide⟩)
    (by decide) (by decide) "fooId" fooInstance (by decide)

/-- C5, as stated, fails: the one-instance map whose `Name` is "z\na" gives the
output "z\na v i", and its lines split on newlines, "z" then "a v i", are not in
non-decreasing order. -/
theorem BuildCandidates_lines_unsorted_on_newline :
    BuildCandidates { IsCached := false, Instances := twoLineNameInstances } = .ok "z\na v i" ∧
    stringsSplit "z\na v i" '\n' = ["z", "a v i"] ∧
    ¬ (stringsSplit "z\na v i" '\n').Sorted (· ≤ ·) := by
  refine ⟨by decide, by decide, ?_⟩
  have hsplit : stringsSplit "z\na v i" '\n' = ["z", "a v i"] := by decide
  rw [hsplit]
  intro hsorted
  have hle : ("z" : String) ≤ "a v i" := by
    simpa using hsorted
  have hfalse : stringLess "a v i" "z" = false := (stringLess_eq_false_iff_le _ _).2 hle
  exact absurd hfalse (by decide)

/-- C5, amended. The output of `BuildCandidates` does not depend on the order in
which the map is enumerated; and when every instance has a resolved network group
and no instance name, network-group name or key holds a line feed, the lines of
the output, split on newlines, are in non-decreasing lexicographic order. -/
theorem BuildCandidates_sorted_and_order_independent :
    (∀ (c₁ c₂ : Bool) (l₁ l₂ : List (String × Instance)), l₁.Perm l₂ →
      BuildCandidates { IsCached := c₁, Instances := l₁ } =
        BuildCandidates { IsCached := c₂, Instances := l₂ }) ∧
    (∀ ro : ReadOutput,
      (∀ p ∈ ro.Instances, ∃ vpc, p.2.Vpc = some vpc ∧ '\n' ∉ vpc.Name.data) →
      (∀ p ∈ ro.Instances, '\n' ∉ p.2.Name.data ∧ '\n' ∉ p.1.data) →
      ∃ out, BuildCandidates ro = .ok out ∧ (stringsSplit out '\n').Sorted (· ≤ ·)) := by
  refine ⟨BuildCandidates_perm, ?_⟩
  intro ro hres hnl
  have hres' : ∀ p ∈ ro.Instances, ∃ vpc, p.2.Vpc = some vpc :=
    fun p hp => (hres p hp).imp fun _ h => h.1
  refine ⟨_, BuildCandidates_resolved ro hres', ?_⟩
  generalize hc : (ro.Instances.map fun p =>
      truncateRunes 30 p.2.Name ++ " " ++
        truncateRunes 10 ((p.2.Vpc.map Vpc.Name).getD "") ++ " " ++ p.1) = candidates
  have hclean : ∀ line ∈ sortStrings candidates, '\n' ∉ line.data := by
    intro line hline
    have hmem : line ∈ candidates := (sortStrings_perm candidates).mem_iff.1 hline
    rw [← hc] at hmem
    obtain ⟨p, hp, rfl⟩ := List.mem_map.1 hmem
    obtain ⟨vpc, hvpc, hvname⟩ := hres p hp
    rw [hvpc, Option.map_some', Option.getD_some, candidate_data]
    intro hin
    rcases List.mem_append.1 hin with h1 | h1
    · exact (hnl p hp).1 (List.mem_of_mem_take h1)
    · rcases List.mem_cons.1 h1 with h2 | h2
      · exact absurd h2 (by decide)
      · rcases List.mem_append.1 h2 with h3 | h3
        · exact hvname (List.mem_of_mem_take h3)
        · rcases List.mem_cons.1 h3 with h4 | h4
          · exact absurd h4 (by decide)
          · exact (hnl p hp).2 h4
  by_cases hempty : sortStrings candidates = []
  · rw [hempty]
    have : stringsSplit (stringsJoin [] "\n") '\n' = [""] := by decide
    rw [this]
    exact List.sorted_singleton _
  · rw [stringsSplit_stringsJoin _ hempty hclean]
    exact sortStrings_sorted candidates

/-- Witness of C5 as amended: the two-instance map and its reverse enumeration. -/
theorem BuildCandidates_sorted_and_order_independent_witness :
    (BuildCandidates { IsCached := false, Instances := twoInstances } =
      BuildCandidates { IsCached := true, Instances := twoInstances.reverse }) ∧
    ∃ out, BuildCandidates { IsCached := false, Instances := twoInstances } = .ok out ∧
      (stringsSplit out '\n').Sorted (· ≤ ·) :=
  ⟨BuildCandidates_sorted_and_order_independent.1 false true twoInstances twoInstances.reverse
      (List.reverse_perm twoInstances).symm,
    BuildCandidates_sorted_and_order_independent.2
      { IsCached := false, Instances := twoInstances }
      (by
        intro p hp
        simp only [twoInstances, List.mem_cons, List.mem_singleton, List.not_mem_nil,
          or_false] at hp
        rcases hp with rfl | rfl
        · exact ⟨vpcNamed "fooVpcName", rfl, by decide⟩
        · exact ⟨vpcNamed "barVpcName", rfl, by decide⟩)
      (by decide)⟩

/-- C10, as stated, fails: the fields are not padded. The two-instance map of the
example gives "barName barVpcName barId\nfooName fooVpcName fooId", not the padded
text, and the line of `fooId` has 19 characters before its id, not 42. -/
theorem BuildCandidates_does_not_pad :
    BuildCandidates { IsCached := false, Instances := twoInstances } =
      .ok "barName barVpcName barId\nfooName fooVpcName fooId" ∧
    BuildCandidates { IsCached := false, Instances := twoInstances } ≠
      .ok "barName     barVpcName barId\nfooName     fooVpcName fooId" ∧
    candidateLine "fooId" fooInstance = .ok ("fooName fooVpcName " ++ "fooId") ∧
    ("fooName fooVpcName " : String).data.length = 19 := by
  decide

/-- C10, amended. When every instance has a resolved network group, every line of
the `BuildCandidates` output is a name field, one space, a network-group field,
one space and the full key: the name field is the first min(30, length)
characters of `Name`, the group field the first min(10, length) characters of
`Vpc.Name`, neither is padded, so a line has at most 42 characters before its id;
for the two-instance map of the example the output is
"barName barVpcName barId\nfooName fooVpcName fooId". -/
theorem BuildCandidates_fields_truncated (ro : ReadOutput)
    (hvpc : ∀ p ∈ ro.Instances, p.2.Vpc ≠ none) :
    (∃ lines, BuildCandidates ro = .ok (stringsJoin lines "\n") ∧
      ∀ line ∈ lines, ∃ p ∈ ro.Instances, ∃ vpc, p.2.Vpc = some vpc ∧
        ∃ nameField vpcField : String,
          line = nameField ++ " " ++ vpcField ++ " " ++ p.1 ∧
          nameField.data = p.2.Name.data.take 30 ∧
          vpcField.data = vpc.Name.data.take 10 ∧
          nameField.data.length = min 30 p.2.Name.data.length ∧
          vpcField.data.length = min 10 vpc.Name.data.length ∧
          (nameField ++ " " ++ vpcField ++ " ").data.length ≤ 42) ∧
    BuildCandidates { IsCached := false, Instances := twoInstances } =
      .ok "barName barVpcName barId\nfooName fooVpcName fooId" := by
  have hres : ∀ p ∈ ro.Instances, ∃ vpc, p.2.Vpc = some vpc :=
    fun p hp => Option.ne_none_iff_exists'.1 (hvpc p hp)
  refine ⟨⟨_, BuildCandidates_resolved ro hres, ?_⟩, by decide⟩
  intro line hline
  have hmem := (sortStrings_perm _).mem_iff.1 hline
  obtain ⟨p, hp, rfl⟩ := List.mem_map.1 hmem
  obtain ⟨vpc, hv⟩ := hres p hp
  refine ⟨p, hp, vpc, hv, truncateRunes 30 p.2.Name, truncateRunes 10 vpc.Name, ?_, rfl, rfl,
    ?_, ?_, ?_⟩
  · rw [hv]; rfl
  · simp [truncateRunes]
  · simp [truncateRunes]
  · have h1 : (truncateRunes 30 p.2.Name).data.length ≤ 30 := by simp [truncateRunes]
    have h2 : (truncateRunes 10 vpc.Name).data.length ≤ 10 := by simp [truncateRunes]
    have h3 : (" " : String).data.length = 1 := rfl
    simp only [String.data_append, List.length_append, h3]
    omega

/-- Witness of C10 as amended: the two-instance map of the example. -/
theorem BuildCandidates_fields_truncated_witness :
    ∃ lines, BuildCandidates { IsCached := false, Instances := twoInstances } =
        .ok (stringsJoin lines "\n") ∧
      ∀ line ∈ lines, ∃ p ∈ twoInstances, ∃ vpc, p.2.Vpc = some vpc ∧
        ∃ nameField vpcField : String,
          line = nameField ++ " " ++ vpcField ++ " " ++ p.1 ∧
          nameField.data = p.2.Name.data.take 30 ∧
          vpcField.data = vpc.Name.data.take 10 ∧
          nameField.data.length = min 30 p.2.Name.data.length ∧
          vpcField.data.length = min 10 vpc.Name.data.length ∧
          (nameField ++ " " ++ vpcField ++ " ").data.length ≤ 42 :=
  (BuildCandidates_fields_truncated { IsCached := false, Instances := twoInstances }
    (by decide)).1

/-! ## The cache read -/

theorem scanCacheEntries_some (env : Env) (pfx : String) (entries : List FileInfo)
    (ro : ReadOutput) (h : scanCacheEntries env pfx entries = .ok (some ro)) :
    ∃ e ∈ entries, IsCacheEntry e pfx = true ∧ IsExpired env.Now e = false ∧
      loadCacheEntry env e = .ok ro := by
  induction entries with
  | nil => simp [scanCacheEntries] at h
  | cons e rest ih =>
    by_cases hv : (IsCacheEntry e pfx && !IsExpired env.Now e) = true
    · have hv' := hv
      simp only [Bool.and_eq_true, Bool.not_eq_true'] at hv'
      refine ⟨e, List.mem_cons_self _ _, hv'.1, hv'.2, ?_⟩
      simp only [scanCacheEntries, hv, if_true] at h
      cases hl : loadCacheEntry env e with
      | ok r =>
        rw [hl] at h
        simp only [Result.bind_ok, Result.ok.injEq, Option.some.injEq] at h
        rw [h]
      | fatal m => rw [hl] at h; simp at h
      | panic m => rw [hl] at h; simp at h
      | unmodelled m => rw [hl] at h; simp at h
    · simp only [scanCacheEntries, hv] at h
      obtain ⟨x, hx, hrest⟩ := ih h
      exact ⟨x, List.mem_cons_of_mem _ hx, hrest⟩

theorem scanCacheEntries_first (env : Env) (pfx : String) (entries : List FileInfo)
    (h : ∃ e ∈ entries, IsCacheEntry e pfx = true ∧ IsExpired env.Now e = false) :
    ∃ before first after, entries = before ++ first :: after ∧
      (∀ x ∈ before, ¬ (IsCacheEntry x pfx = true ∧ IsExpired env.Now x = false)) ∧
      IsCacheEntry first pfx = true ∧ IsExpired env.Now first = false ∧
      scanCacheEntries env pfx entries =
        (loadCacheEntry env first).bind fun ro => .ok (some ro) := by
  induction entries with
  | nil => obtain ⟨e, he, _⟩ := h; simp at he
  | cons x rest ih =>
    by_cases hv : (IsCacheEntry x pfx && !IsExpired env.Now x) = true
    · have hv' := hv
      simp only [Bool.and_eq_true, Bool.not_eq_true'] at hv'
      exact ⟨[], x, rest, rfl, by simp, hv'.1, hv'.2, by simp [scanCacheEntries, hv]⟩
    · have hx : ¬ (IsCacheEntry x pfx = true ∧ IsExpired env.Now x = false) := by
        intro hc
        apply hv
        simp [hc.1, hc.2]
      have hrest : ∃ e ∈ rest, IsCacheEntry e pfx = true ∧ IsExpired env.Now e = false := by
        obtain ⟨e, he, hval⟩ := h
        rcases List.mem_cons.1 he with heq | hmem
        · subst heq; exact absurd hval hx
        · exact ⟨e, hmem, hval⟩
      obtain ⟨before, first, after, hsplit, hbefore, h1, h2, hscan⟩ := ih hrest
      refine ⟨x :: before, first, after, by simp [hsplit], ?_, h1, h2, ?_⟩
      · intro y hy
        rcases List.mem_cons.1 hy with heq | hmem
        · subst heq; exact hx
        · exact hbefore y hmem
      · simp only [scanCacheEntries, hv]
        exact hscan

theorem IsExpired_eq_false_iff (now : Int) (e : FileInfo) :
    IsExpired now e = false ↔ now - e.ModTime ≤ 24 * 60 * 60 * 1000000000 := by
  unfold IsExpired expiresIn
  simp only [decide_eq_false_iff_not, not_lt]
  constructor <;> intro h <;> omega

theorem IsCacheEntry_eq_true_iff (e : FileInfo) (pfx : String) :
    IsCacheEntry e pfx = true ↔ e.IsDir = true ∧ stringsHasPrefix e.Name pfx = true := by
  simp [IsCacheEntry]

/-- C6, as stated, fails. At time 1 the three entries of the listing all have a
name that starts with "p" and were modified less than 24 hours ago; the read
returns the payload of the directory `p-a` only: not that of the regular file
`p-file`, and not that of the second directory `p-b`. A listing that holds only
the regular file is a miss. -/
theorem readFromCache_skips_fresh_entries :
    (∀ e ∈ threeEntries, stringsHasPrefix e.Name "p" = true ∧
      (cacheEnv 1 threeEntries).Now - e.ModTime < 24 * 60 * 60 * 1000000000) ∧
    readFromCache (cacheEnv 1 threeEntries) "p" =
      .ok (some { IsCached := true, Instances := [("/tmp/p-a/instances.json", zeroInstance)] }) ∧
    loadCacheEntry (cacheEnv 1 threeEntries) { Name := "p-file", IsDir := false, ModTime := 0 } =
      .ok { IsCached := true, Instances := [("/tmp/p-file/instances.json", zeroInstance)] } ∧
    loadCacheEntry (cacheEnv 1 threeEntries) { Name := "p-b", IsDir := true, ModTime := 0 } =
      .ok { IsCached := true, Instances := [("/tmp/p-b/instances.json", zeroInstance)] } ∧
    readFromCache (cacheEnv 1 [{ Name := "p-file", IsDir := false, ModTime := 0 }]) "p" =
      .ok none := by
  decide

/-- C6, amended. With the current time as the parameter `env.Now`: whatever the
listing and its order, a payload the cache read returns is that of an entry of
the listing that is a directory, whose name starts with the prefix and that was
modified at most 24 hours before now, never of an older one; and when the listing
holds a directory whose name starts with the prefix and that was modified at most
24 hours before now, the read is not a miss: its result is the payload of the
first such entry of the listing (or the fatal error of reading that payload). -/
theorem readFromCache_fresh (env : Env) (pfx : String) :
    (∀ ro, readFromCache env pfx = .ok (some ro) →
      ∃ entries, env.ReadDir cacheDirRoot = .ok entries ∧
        ∃ e ∈ entries, e.IsDir = true ∧ stringsHasPrefix e.Name pfx = true ∧
          env.Now - e.ModTime ≤ 24 * 60 * 60 * 1000000000 ∧
          loadCacheEntry env e = .ok ro ∧ ro.IsCached = true) ∧
    (∀ entries e, env.ReadDir cacheDirRoot = .ok entries → e ∈ entries →
      e.IsDir = true → stringsHasPrefix e.Name pfx = true →
      env.Now - e.ModTime ≤ 24 * 60 * 60 * 1000000000 →
      ∃ before first after, entries = before ++ first :: after ∧
        (∀ x ∈ before, ¬ (x.IsDir = true ∧ stringsHasPrefix x.Name pfx = true ∧
          env.Now - x.ModTime ≤ 24 * 60 * 60 * 1000000000)) ∧
        first.IsDir = true ∧ stringsHasPrefix first.Name pfx = true ∧
        env.Now - first.ModTime ≤ 24 * 60 * 60 * 1000000000 ∧
        readFromCache env pfx = (loadCacheEntry env first).bind fun ro => .ok (some ro)) := by
  constructor
  · intro ro h
    unfold readFromCache at h
    cases hd : env.ReadDir cacheDirRoot with
    | ok entries =>
      rw [hd] at h
      obtain ⟨e, he, h1, h2, h3⟩ := scanCacheEntries_some env pfx entries ro h
      refine ⟨entries, rfl, e, he, ((IsCacheEntry_eq_true_iff e pfx).1 h1).1,
        ((IsCacheEntry_eq_true_iff e pfx).1 h1).2, (IsExpired_eq_false_iff _ _).1 h2, h3, ?_⟩
      unfold loadCacheEntry at h3
      cases hf : env.ReadFile (pathJoin3 cacheDirRoot e.Name cacheFileInstances) with
      | ok content =>
        rw [hf] at h3
        simp only [Result.bind_ok] at h3
        cases hu : env.Unmarshal content with
        | ok instances =>
          rw [hu] at h3
          simp only [Result.bind_ok, Result.ok.injEq] at h3
          rw [← h3]
        | fatal m => rw [hu] at h3; simp at h3
        | panic m => rw [hu] at h3; simp at h3
        | unmodelled m => rw [hu] at h3; simp at h3
      | fatal m => rw [hf] at h3; simp at h3
      | panic m => rw [hf] at h3; simp at h3
      | unmodelled m => rw [hf] at h3; simp at h3
    | fatal m => rw [hd] at h; simp at h
    | panic m => rw [hd] at h; simp at h
    | unmodelled m => rw [hd] at h; simp at h
  · intro entries e hd he hdir hpfx hfresh
    obtain ⟨before, first, after, hsplit, hbefore, h1, h2, hscan⟩ :=
      scanCacheEntries_first env pfx entries
        ⟨e, he, (IsCacheEntry_eq_true_iff e pfx).2 ⟨hdir, hpfx⟩,
          (IsExpired_eq_false_iff _ _).2 hfresh⟩
    refine ⟨before, first, after, hsplit, ?_, ((IsCacheEntry_eq_true_iff _ _).1 h1).1,
      ((IsCacheEntry_eq_true_iff _ _).1 h1).2, (IsExpired_eq_false_iff _ _).1 h2, ?_⟩
    · intro x hx hc
      exact hbefore x hx ⟨(IsCacheEntry_eq_true_iff _ _).2 ⟨hc.1, hc.2.1⟩,
        (IsExpired_eq_false_iff _ _).2 hc.2.2⟩
    · unfold readFromCache
      rw [hd]
      exact hscan

/-- Witness of C6 as amended: the entry `p-b` is fresh, the read returns the first fresh directory. -/
theorem readFromCache_fresh_witness :
    ∃ before first after, threeEntries = before ++ first :: after ∧
      (∀ x ∈ before, ¬ (x.IsDir = true ∧ stringsHasPrefix x.Name "p" = true ∧
        (cacheEnv 1 threeEntries).Now - x.ModTime ≤ 24 * 60 * 60 * 1000000000)) ∧
      first.IsDir = true ∧ stringsHasPrefix first.Name "p" = true ∧
      (cacheEnv 1 threeEntries).Now - first.ModTime ≤ 24 * 60 * 60 * 1000000000 ∧
      readFromCache (cacheEnv 1 threeEntries) "p" =
        (loadCacheEntry (cacheEnv 1 threeEntries) first).bind fun ro => .ok (some ro) :=
  (readFromCache_fresh (cacheEnv 1 threeEntries) "p").2 threeEntries
    { Name := "p-b", IsDir := true, ModTime := 0 } (by decide) (by decide) (by decide)
    (by decide) (by decide)

/-! ## FQDN rendering -/

theorem lexTemplate_id_vpc :
    lexTemplate false [] "\x7b\x7b.InstanceId\x7d\x7d.\x7b\x7b.VpcId\x7d\x7d.aws.example.com".data =
      .ok [.text [], .action ".InstanceId".data, .text ".".data, .action ".VpcId".data,
        .text ".aws.example.com".data] := by
  decide

theorem parseFieldChain_instanceId :
    parseFieldChain ['.', 'I', 'n', 's', 't', 'a', 'n', 'c', 'e', 'I', 'd'] =
      some ["InstanceId"] := by
  decide

theorem parseFieldChain_vpcId :
    parseFieldChain ['.', 'V', 'p', 'c', 'I', 'd'] = some ["VpcId"] := by
  decide

/-- C8. With the template "{{.InstanceId}}.{{.VpcId}}.aws.example.com", `Fqdn`
returns the InstanceId of the instance, a dot, its VpcId and ".aws.example.com",
both copied as they are ("foo123.bar456.aws.example.com" for the instance of the
test); with the empty template it returns the empty string. -/
theorem Fqdn_instanceId_vpcId (i : Instance) (purgeCache : Bool) (region sshBin : String) :
    Fqdn i { PurgeCache := purgeCache, Region := region, SshBin := sshBin,
             TemplateFqdn :=
               "\x7b\x7b.InstanceId\x7d\x7d.\x7b\x7b.VpcId\x7d\x7d.aws.example.com" } =
      .ok (i.InstanceId ++ "." ++ i.VpcId ++ ".aws.example.com") ∧
    Fqdn i { PurgeCache := purgeCache, Region := region, SshBin := sshBin,
             TemplateFqdn := "" } = .ok "" ∧
    Fqdn { zeroInstance with InstanceId := "foo123", VpcId := "bar456" }
        { PurgeCache := false, Region := "", SshBin := "",
          TemplateFqdn :=
            "\x7b\x7b.InstanceId\x7d\x7d.\x7b\x7b.VpcId\x7d\x7d.aws.example.com" } =
      .ok "foo123.bar456.aws.example.com" := by
  refine ⟨?_, rfl, by decide⟩
  unfold Fqdn
  rw [lexTemplate_id_vpc]
  simp only [Result.bind_ok, templateExecute, parseFieldChain_instanceId, parseFieldChain_vpcId]
  have h1 : evalFieldChain i ["InstanceId"] = .ok i.InstanceId := by simp [evalFieldChain]
  have h2 : evalFieldChain i ["VpcId"] = .ok i.VpcId := by
    unfold evalFieldChain
    rw [if_neg (by decide), if_neg (by decide), if_pos rfl]
  rw [h1, h2]
  simp only [Result.bind_ok, Result.ok.injEq]
  apply String.ext
  simp [String.data_append]

/-! ## The cache write -/

theorem mem_mapSet {β : Type} (m : List (String × β)) (key : String) (v : β)
    (p : String × β) (h : p ∈ mapSet m key v) : p = (key, v) ∨ p ∈ m := by
  induction m with
  | nil => simpa [mapSet] using h
  | cons q rest ih =>
    obtain ⟨k, w⟩ := q
    by_cases hk : k = key
    · simp only [mapSet, hk, if_true, List.mem_cons] at h
      rcases h with h | h
      · exact Or.inl h
      · exact Or.inr (List.mem_cons_of_mem _ h)
    · simp only [mapSet, hk, if_false, List.mem_cons] at h
      rcases h with h | h
      · exact Or.inr (by simp [h])
      · rcases ih h with h' | h'
        · exact Or.inl h'
        · exact Or.inr (List.mem_cons_of_mem _ h')

theorem mem_of_mapGet {β : Type} (m : List (String × β)) (key : String) (v : β)
    (h : mapGet m key = some v) : (key, v) ∈ m := by
  induction m with
  | nil => simp [mapGet] at h
  | cons q rest ih =>
    obtain ⟨k, w⟩ := q
    by_cases hk : k = key
    · simp only [mapGet, hk, if_true, Option.some.injEq] at h
      simp [hk, h]
    · simp only [mapGet, hk, if_false] at h
      exact List.mem_cons_of_mem _ (ih h)

theorem convertVpcs_values (raw : List Ec2Vpc) (vpcs : List (String × Option Vpc))
    (h : ∀ p ∈ vpcs, p.2 ≠ none) : ∀ p ∈ convertVpcs raw vpcs, p.2 ≠ none := by
  induction raw generalizing vpcs with
  | nil => simpa [convertVpcs] using h
  | cons output rest ih =>
    simp only [convertVpcs]
    apply ih
    intro p hp
    rcases mem_mapSet _ _ _ p hp with heq | hmem
    · rw [heq]; simp
    · exact h p hmem

theorem Merge_ok_vpc (instances : List (String × Instance)) (vpcs : List (String × Option Vpc))
    (out : List (String × Instance)) (h : Merge instances vpcs = .ok out) :
    ∀ q ∈ out, mapGet vpcs q.2.VpcId = some q.2.Vpc := by
  induction instances generalizing out with
  | nil =>
    simp only [Merge, Result.ok.injEq] at h
    subst h
    simp
  | cons p rest ih =>
    obtain ⟨k, inst⟩ := p
    cases hg : mapGet vpcs inst.VpcId with
    | none => simp [Merge, hg] at h
    | some vpc =>
      cases hm : Merge rest vpcs with
      | ok out' =>
        simp only [Merge, hg, hm, Result.bind_ok, Result.ok.injEq] at h
        subst h
        intro q hq
        rcases List.mem_cons.1 hq with heq | hmem
        · subst heq; exact hg
        · exact ih out' hm q hmem
      | fatal m => simp [Merge, hg, hm] at h
      | panic m => simp [Merge, hg, hm] at h
      | unmodelled m => simp [Merge, hg, hm] at h

theorem describeInstances_ok (env : Env) (config : Config) (v : List (String × Instance))
    (h : describeInstances env config = .ok v) :
    ∃ out vout, env.DescribeInstances config.Region = .ok out ∧
      env.DescribeVpcs config.Region = .ok vout ∧
      Merge (outputToInstances out) (outputToVpcs vout) = .ok v := by
  unfold describeInstances at h
  cases h1 : env.DescribeInstances config.Region with
  | ok out =>
    cases h2 : env.DescribeVpcs config.Region with
    | ok vout =>
      rw [h1, h2] at h
      exact ⟨out, vout, rfl, rfl, h⟩
    | fatal m => rw [h1, h2] at h; simp at h
    | panic m => rw [h1, h2] at h; simp at h
    | unmodelled m => rw [h1, h2] at h; simp at h
  | fatal m => rw [h1] at h; simp at h
  | panic m => rw [h1] at h; simp at h
  | unmodelled m => rw [h1] at h; simp at h

theorem fetchAndCache_write (env : Env) (config : Config) (pfx path : String)
    (v : List (String × Instance))
    (h : Effect.writeCache path v ∈ (fetchAndCache env config pfx).1) :
    describeInstances env config = .ok v ∧
      ∀ ro, (fetchAndCache env config pfx).2 = .ok ro → ro = { IsCached := false, Instances := v } := by
  unfold fetchAndCache at h ⊢
  cases h1 : env.MkdirTemp (pfx ++ "-" ++ "*") with
  | ok tmpDir =>
    cases h2 : describeInstances env config with
    | ok instances =>
      cases h3 : env.WriteFile (pathJoin2 tmpDir cacheFileInstances) <;>
        simp [h1, h2, h3, writeCache] at h ⊢ <;> simp [h.2]
    | fatal m => simp [h1, h2] at h
    | panic m => simp [h1, h2] at h
    | unmodelled m => simp [h1, h2] at h
  | fatal m => simp [h1] at h
  | panic m => simp [h1] at h
  | unmodelled m => simp [h1] at h

theorem fetchAndCache_writes (env : Env) (config : Config) (pfx tmpDir : String)
    (v : List (String × Instance)) (h1 : env.MkdirTemp (pfx ++ "-" ++ "*") = .ok tmpDir)
    (h2 : describeInstances env config = .ok v) :
    Effect.writeCache (pathJoin2 tmpDir cacheFileInstances) v ∈
      (fetchAndCache env config pfx).1 := by
  unfold fetchAndCache
  cases h3 : env.WriteFile (pathJoin2 tmpDir cacheFileInstances) <;>
    simp [h1, h2, h3, writeCache]

/-- C9, as stated, fails. On a miss in `fetchEnv` (empty cache root, one running
instance `i-1` in `vpc-1`), the map handed to the cache write holds `i-1` with
its `Vpc` already resolved to `vpc-1`: it is the map `Merge` returned. -/
theorem readInstances_writes_resolved_vpc :
    readFromCache fetchEnv "go-awssh-v0.1.0-us-east-1" = .ok none ∧
    readInstances fetchEnv fetchConfig =
      ([Effect.mkdirTemp "go-awssh-v0.1.0-us-east-1-*",
        Effect.writeCache "/tmp/go-awssh-v0.1.0-us-east-1-1/instances.json"
          [("i-1", fetchedInstance)]],
       .ok { IsCached := false, Instances := [("i-1", fetchedInstance)] }) ∧
    fetchedInstance.Vpc ≠ none ∧
    outputToInstances (DescribeInstancesOutput.mk [Ec2Reservation.mk [rawInstance]]) =
      [("i-1", { fetchedInstance with Vpc := none })] := by
  decide

/-- C9, amended. Whatever `readInstances` hands to the cache write is the map
returned by `describeInstances`, that is the conversion of the fetch after
`Merge`: every instance in the written map carries its resolved network group,
the VPC map's entry for its `VpcId`, and the same map is the result of
`readInstances`. On a miss (a purge was requested, or the cache read found no
valid entry), once the temporary directory is made and the fetch and the join
succeed, that map is written to `instances.json` in the new directory. -/
theorem readInstances_caches_merged (env : Env) (config : Config) :
    (∀ path v, Effect.writeCache path v ∈ (readInstances env config).1 →
      (∃ out vout, env.DescribeInstances config.Region = .ok out ∧
        env.DescribeVpcs config.Region = .ok vout ∧
        Merge (outputToInstances out) (outputToVpcs vout) = .ok v ∧
        ∀ p ∈ v, ∃ vpc, p.2.Vpc = some vpc ∧
          mapGet (outputToVpcs vout) p.2.VpcId = some (some vpc)) ∧
      ∀ ro, (readInstances env config).2 = .ok ro →
        ro = { IsCached := false, Instances := v }) ∧
    (∀ tmpDir v,
      (config.PurgeCache = true ∨
        readFromCache env ("go-awssh" ++ "-" ++ version ++ "-" ++ config.Region) = .ok none) →
      env.MkdirTemp ("go-awssh" ++ "-" ++ version ++ "-" ++ config.Region ++ "-" ++ "*") =
        .ok tmpDir →
      describeInstances env config = .ok v →
      Effect.writeCache (pathJoin2 tmpDir cacheFileInstances) v ∈
        (readInstances env config).1) := by
  constructor
  · intro path v hw
    have key : describeInstances env config = .ok v ∧
        ∀ ro, (readInstances env config).2 = .ok ro →
          ro = { IsCached := false, Instances := v } := by
      unfold readInstances at hw ⊢
      generalize ("go-awssh" ++ "-" ++ version ++ "-" ++ config.Region) = pfx at hw ⊢
      by_cases hp : config.PurgeCache = true
      · simp only [hp, if_true, List.mem_cons, reduceCtorEq, false_or] at hw ⊢
        exact fetchAndCache_write env config _ path v hw
      · simp only [hp] at hw ⊢
        cases hc : readFromCache env pfx with
        | ok cached =>
          cases cached with
          | none =>
            simp only [hc] at hw ⊢
            exact fetchAndCache_write env config _ path v hw
          | some ro => simp [hc] at hw
        | fatal m => simp [hc] at hw
        | panic m => simp [hc] at hw
        | unmodelled m => simp [hc] at hw
    obtain ⟨out, vout, h1, h2, hm⟩ := describeInstances_ok env config v key.1
    refine ⟨⟨out, vout, h1, h2, hm, ?_⟩, key.2⟩
    intro p hp
    have hget := Merge_ok_vpc _ _ v hm p hp
    have hmem := mem_of_mapGet _ _ _ hget
    have hne : p.2.Vpc ≠ none :=
      convertVpcs_values vout.Vpcs [] (by simp) (p.2.VpcId, p.2.Vpc) hmem
    obtain ⟨vpc, hvpc⟩ := Option.ne_none_iff_exists'.1 hne
    exact ⟨vpc, hvpc, by rw [hget, hvpc]⟩
  · intro tmpDir v hmiss hdir hfetch
    unfold readInstances
    generalize ("go-awssh" ++ "-" ++ version ++ "-" ++ config.Region) = pfx at hmiss hdir ⊢
    rcases hmiss with hp | hc
    · simp only [hp, if_true, List.mem_cons, reduceCtorEq, false_or]
      exact fetchAndCache_writes env config _ tmpDir v hdir hfetch
    · by_cases hp : config.PurgeCache = true
      · simp only [hp, if_true, List.mem_cons, reduceCtorEq, false_or]
        exact fetchAndCache_writes env config _ tmpDir v hdir hfetch
      · simp only [hp, hc]
        exact fetchAndCache_writes env config _ tmpDir v hdir hfetch

/-- Witness of C9 as amended: the write of the fetch of `fetchEnv`. -/
theorem readInstances_caches_merged_witness :
    (∃ out vout, fetchEnv.DescribeInstances fetchConfig.Region = .ok out ∧
      fetchEnv.DescribeVpcs fetchConfig.Region = .ok vout ∧
      Merge (outputToInstances out) (outputToVpcs vout) = .ok [("i-1", fetchedInstance)] ∧
      ∀ p ∈ [("i-1", fetchedInstance)], ∃ vpc, p.2.Vpc = some vpc ∧
        mapGet (outputToVpcs vout) p.2.VpcId = some (some vpc)) ∧
    ∀ ro, (readInstances fetchEnv fetchConfig).2 = .ok ro →
      ro = { IsCached := false, Instances := [("i-1", fetchedInstance)] } :=
  (readInstances_caches_merged fetchEnv fetchConfig).1
    "/tmp/go-awssh-v0.1.0-us-east-1-1/instances.json" [("i-1", fetchedInstance)] (by decide)

end Awssh
